import Mathlib

/-!
Verification of the data-collection layer of SystemReporter (SystemReporter.py).

Each Python probe is embedded as a Lean function.  External surfaces
(registry reads, subprocess invocations, psutil queries, hostname lookup)
are injected as explicit parameters: a `none` / `Except.error` value models
the corresponding Python call raising an exception.
-/

namespace SystemReporter

/-! ## Product key decoding (`get_windows_product_key`)

The Python code reads the 15-byte window `value[52:67]` of the registry blob
`DigitalProductId` and decodes it with 25 rounds of in-place long division
by 24 over the byte array, collecting the remainders through the alphabet
`BCDFGHJKMPQRTVWXY2346789`.
-/

def keyMap : List Char := "BCDFGHJKMPQRTVWXY2346789".data

/-- One step sequence of the inner loop `for j in range(14, -1, -1)`:
`k = (k << 8) | product_id[j]; product_id[j] = k // 24; k %= 24`.
The loop walks the byte array from index 14 down to 0, i.e. it processes the
digits most-significant-first; here the digit list is given in that
(most-significant-first) order. -/
def longDivBE : Nat → List Nat → List Nat × Nat
  | k, [] => ([], k)
  | k, d :: ds =>
    let k2 := (k <<< 8) ||| d
    let (qs, r) := longDivBE (k2 % 24) ds
    (k2 / 24 :: qs, r)

/-- One full pass of the inner loop over `product_id` (which the Python code
stores least-significant byte first, as sliced from the blob). -/
def passOnce (productId : List Nat) : List Nat × Nat :=
  let p := longDivBE 0 productId.reverse
  (p.1.reverse, p.2)

/-- The outer loop `for i in range(24, -1, -1)`: 25 iterations, each running a
pass and appending `key_map[k]`.  Characters are listed in append order. -/
def keyCharsAux : Nat → List Nat → List Char
  | 0, _ => []
  | n + 1, productId =>
    keyMap.getD (passOnce productId).2 ' ' :: keyCharsAux n (passOnce productId).1

def keyChars (productId : List Nat) : List Char := keyCharsAux 25 productId

/-- Python `'-'.join([key[i:i+5] for i in range(0, len(key), 5)])`. -/
def formatKey (cs : List Char) : String :=
  String.intercalate "-" ((List.range ((cs.length + 4) / 5)).map fun i =>
    String.mk ((cs.drop (5 * i)).take 5))

/-- Embedding of `get_windows_product_key`: `value` is the `DigitalProductId` registry blob
(`none` models the registry read failing).  `value[52:67]` must provide the
full 15-byte window; otherwise the Python loop raises `IndexError`, which the
surrounding `except` turns into `None`. -/
def get_windows_product_key (value : Option (List Nat)) : Option String :=
  match value with
  | none => none
  | some v =>
    let productId := (v.drop 52).take 15
    if productId.length = 15 then
      some (formatKey (keyChars productId).reverse)
    else
      none

/-! ### Reference algorithm, taken from the specification text

"treat a designated 15-byte window of the blob as a 15-digit base-256 big
number; repeatedly divide this number by 24 for 25 iterations, mapping each
remainder through a fixed 24-symbol alphabet to produce 25 characters;
reverse the character sequence and group it into 5-character segments joined
by hyphens."  The byte at offset 52 is the least-significant base-256 digit,
matching the direction of the code's long division. -/

def bytesToNat (ds : List Nat) : Nat := ds.foldr (fun d acc => d + 256 * acc) 0

def refRemainders : Nat → Nat → List Char
  | 0, _ => []
  | n + 1, N => keyMap.getD (N % 24) ' ' :: refRemainders n (N / 24)

def referenceDecode (ds : List Nat) : String :=
  formatKey (refRemainders 25 (bytesToNat ds)).reverse

/-! ### Correctness of the long division pass -/

/-- Value of a most-significant-first digit list. -/
def valBE (ds : List Nat) : Nat := ds.foldl (fun acc d => acc * 256 + d) 0

theorem valBE_acc (a : Nat) (ds : List Nat) :
    ds.foldl (fun acc d => acc * 256 + d) a = a * 256 ^ ds.length + valBE ds := by
  induction ds generalizing a with
  | nil => simp [valBE]
  | cons d ds ih =>
    simp only [List.foldl_cons, List.length_cons, valBE]
    rw [ih (a * 256 + d), ih (0 * 256 + d)]
    ring

theorem valBE_cons (d : Nat) (ds : List Nat) :
    valBE (d :: ds) = d * 256 ^ ds.length + valBE ds := by
  simp only [valBE, List.foldl_cons, Nat.zero_mul, Nat.zero_add]
  exact valBE_acc d ds

theorem shl_or_eq (k d : Nat) (hd : d < 256) : (k <<< 8) ||| d = k * 256 + d := by
  have h : (2 : Nat) ^ 8 * k + d = 2 ^ 8 * k ||| d :=
    Nat.mul_add_lt_is_or (b := d) (i := 8) (by norm_num at hd ⊢; omega) k
  rw [Nat.shiftLeft_eq]
  calc k * 2 ^ 8 ||| d = 2 ^ 8 * k ||| d := by rw [Nat.mul_comm]
    _ = 2 ^ 8 * k + d := h.symm
    _ = k * 256 + d := by ring

/-- Full specification of one long-division sweep: it computes the quotient
digits and remainder of the carried value modulo 24, keeps the length, and
keeps every digit below 256. -/
theorem longDivBE_spec (ds : List Nat) (k : Nat) (hk : k < 24)
    (hds : ∀ d ∈ ds, d < 256) :
    (longDivBE k ds).1.length = ds.length ∧
    (∀ q ∈ (longDivBE k ds).1, q < 256) ∧
    (longDivBE k ds).2 = (k * 256 ^ ds.length + valBE ds) % 24 ∧
    valBE (longDivBE k ds).1 = (k * 256 ^ ds.length + valBE ds) / 24 := by
  induction ds generalizing k with
  | nil =>
    refine ⟨rfl, by simp [longDivBE], ?_, ?_⟩
    · simp only [longDivBE, List.length_nil, pow_zero, Nat.mul_one, valBE,
        List.foldl_nil, Nat.add_zero]
      exact (Nat.mod_eq_of_lt hk).symm
    · simp only [longDivBE, valBE, List.foldl_nil, List.length_nil, pow_zero,
        Nat.mul_one, Nat.add_zero]
      exact (Nat.div_eq_of_lt hk).symm
  | cons d ds ih =>
    have hd : d < 256 := hds d (List.mem_cons_self d ds)
    have hds' : ∀ x ∈ ds, x < 256 := fun x hx => hds x (List.mem_cons_of_mem d hx)
    have hk2 : (k <<< 8) ||| d = k * 256 + d := shl_or_eq k d hd
    have hmod : (k * 256 + d) % 24 < 24 := Nat.mod_lt _ (by norm_num)
    obtain ⟨ihlen, ihlt, ihmod, ihdiv⟩ := ih ((k * 256 + d) % 24) hmod hds'
    have hV : k * 256 ^ (d :: ds).length + valBE (d :: ds)
        = (k * 256 + d) * 256 ^ ds.length + valBE ds := by
      rw [valBE_cons]; simp [List.length_cons, pow_succ]; ring
    have hsplit : (k * 256 + d) * 256 ^ ds.length + valBE ds
        = 24 * (((k * 256 + d) / 24) * 256 ^ ds.length)
          + (((k * 256 + d) % 24) * 256 ^ ds.length + valBE ds) := by
      conv_lhs => rw [← Nat.div_add_mod (k * 256 + d) 24]
      ring
    have hq : (k * 256 + d) / 24 < 256 := by
      have : k * 256 + d < 256 * 24 := by nlinarith
      exact Nat.div_lt_of_lt_mul (by omega)
    refine ⟨?_, ?_, ?_, ?_⟩
    · simp only [longDivBE, hk2, List.length_cons]
      rw [show (longDivBE ((k * 256 + d) % 24) ds).1.length = ds.length from ihlen]
    · intro q hq'
      simp only [longDivBE, hk2] at hq'
      rcases List.mem_cons.mp hq' with h | h
      · rw [h]; exact hq
      · exact ihlt q h
    · simp only [longDivBE, hk2]
      rw [ihmod, hV, hsplit,
        Nat.add_comm (24 * ((k * 256 + d) / 24 * 256 ^ ds.length)),
        Nat.add_mul_mod_self_left]
    · simp only [longDivBE, hk2]
      rw [valBE_cons, ihlen, ihdiv, hV, hsplit,
        Nat.add_comm (24 * ((k * 256 + d) / 24 * 256 ^ ds.length)),
        Nat.add_mul_div_left _ _ (by norm_num : (0:Nat) < 24)]
      exact Nat.add_comm _ _

theorem bytesToNat_eq_valBE (ds : List Nat) : bytesToNat ds = valBE ds.reverse := by
  induction ds with
  | nil => rfl
  | cons d ds ih =>
    simp only [bytesToNat, List.foldr_cons, List.reverse_cons, valBE, List.foldl_append,
      List.foldl_cons, List.foldl_nil]
    rw [show ds.foldr (fun d acc => d + 256 * acc) 0 = bytesToNat ds from rfl, ih]
    simp only [valBE]
    ring

/-- One pass of the inner loop divides the base-256 value of the byte array
by 24 and leaves the remainder in `k`. -/
theorem passOnce_spec (ds : List Nat) (hds : ∀ d ∈ ds, d < 256) :
    bytesToNat (passOnce ds).1 = bytesToNat ds / 24 ∧
    (passOnce ds).2 = bytesToNat ds % 24 ∧
    (passOnce ds).1.length = ds.length ∧
    (∀ q ∈ (passOnce ds).1, q < 256) := by
  have hrev : ∀ d ∈ ds.reverse, d < 256 := fun d hd => hds d (List.mem_reverse.mp hd)
  obtain ⟨hlen, hlt, hmod, hdiv⟩ := longDivBE_spec ds.reverse 0 (by norm_num) hrev
  simp only [Nat.zero_mul, Nat.zero_add] at hmod hdiv
  refine ⟨?_, ?_, ?_, ?_⟩
  · show bytesToNat (longDivBE 0 ds.reverse).1.reverse = _
    rw [bytesToNat_eq_valBE, List.reverse_reverse, hdiv, bytesToNat_eq_valBE]
  · show (longDivBE 0 ds.reverse).2 = _
    rw [hmod, bytesToNat_eq_valBE]
  · show (longDivBE 0 ds.reverse).1.reverse.length = _
    rw [List.length_reverse, hlen, List.length_reverse]
  · intro q hq
    exact hlt q (List.mem_reverse.mp hq)

/-- The 25 collected characters are exactly the base-24 remainders of the
window's base-256 value, in order. -/
theorem keyCharsAux_eq_refRemainders (n : Nat) (ds : List Nat)
    (hds : ∀ d ∈ ds, d < 256) :
    keyCharsAux n ds = refRemainders n (bytesToNat ds) := by
  induction n generalizing ds with
  | zero => rfl
  | succ n ih =>
    obtain ⟨hdiv, hmod, _, hlt⟩ := passOnce_spec ds hds
    simp only [keyCharsAux, refRemainders, hmod]
    rw [ih (passOnce ds).1 hlt, hdiv]

theorem keyCharsAux_length (n : Nat) (ds : List Nat) :
    (keyCharsAux n ds).length = n := by
  induction n generalizing ds with
  | zero => rfl
  | succ n ih => simp [keyCharsAux, ih]

/-- The remainder of every pass is below 24, hence `key_map[k]` is in bounds. -/
theorem passOnce_snd_lt (ds : List Nat) : (passOnce ds).2 < 24 := by
  suffices h : ∀ (l : List Nat) (k : Nat), k < 24 → (longDivBE k l).2 < 24 by
    exact h ds.reverse 0 (by norm_num)
  intro l
  induction l with
  | nil => intro k hk; exact hk
  | cons d l ih => intro k _; exact ih _ (Nat.mod_lt _ (by norm_num))

theorem keyChars_mem_keyMap (ds : List Nat) :
    ∀ c ∈ keyChars ds, c ∈ keyMap := by
  suffices h : ∀ (n : Nat) (l : List Nat), ∀ c ∈ keyCharsAux n l, c ∈ keyMap from h 25 ds
  intro n
  induction n with
  | zero => intro l c hc; cases hc
  | succ n ih =>
    intro l c hc
    rcases List.mem_cons.mp hc with h | h
    · have hlt : (passOnce l).2 < keyMap.length := by
        have h1 := passOnce_snd_lt l
        have h2 : keyMap.length = 24 := rfl
        omega
      rw [h, List.getD_eq_getElem keyMap ' ' hlt]
      exact List.getElem_mem hlt
    · exact ih _ c h

/-- Unfolding of the join `'-'.join([key[i:i+5] for i in range(0, 25, 5)])`. -/
theorem formatKey_eq (cs : List Char) (h : cs.length = 25) :
    formatKey cs =
      String.mk (cs.take 5) ++ "-" ++ String.mk ((cs.drop 5).take 5) ++ "-"
        ++ String.mk ((cs.drop 10).take 5) ++ "-" ++ String.mk ((cs.drop 15).take 5)
        ++ "-" ++ String.mk ((cs.drop 20).take 5) := by
  unfold formatKey
  rw [h]
  rfl

theorem formatKey_length (cs : List Char) (h : cs.length = 25) :
    (formatKey cs).length = 29 := by
  rw [formatKey_eq cs h]
  simp only [String.length_append, String.length_mk, List.length_take,
    List.length_drop, h]
  rfl

theorem keyChars_reverse_length (ds : List Nat) :
    (keyChars ds).reverse.length = 25 := by
  rw [List.length_reverse]
  exact keyCharsAux_length 25 ds

/-- C3: for every binary blob from which the 15-byte window `value[52:67]` can
be taken (a list of byte values below 256 with at least 67 entries), the
decode implemented by `get_windows_product_key` equals the reference
algorithm: interpret the window as a base-256 big number, take 25 successive
base-24 remainders mapped through the alphabet `BCDFGHJKMPQRTVWXY2346789`,
reverse the character sequence, and join 5-character groups with hyphens. -/
theorem product_key_decode_refines_spec (v : List Nat) (hlen : 67 ≤ v.length)
    (hb : ∀ d ∈ v, d < 256) :
    get_windows_product_key (some v) = some (referenceDecode ((v.drop 52).take 15)) := by
  have hw : ((v.drop 52).take 15).length = 15 := by
    simp only [List.length_take, List.length_drop]
    omega
  have hbw : ∀ d ∈ (v.drop 52).take 15, d < 256 := fun d hd =>
    hb d (((List.take_sublist _ _).trans (List.drop_sublist _ _)).subset hd)
  show (if ((v.drop 52).take 15).length = 15 then
      some (formatKey (keyChars ((v.drop 52).take 15)).reverse) else none) = _
  rw [if_pos hw]
  unfold referenceDecode
  rw [show keyChars ((v.drop 52).take 15) = keyCharsAux 25 ((v.drop 52).take 15) from rfl,
    keyCharsAux_eq_refRemainders 25 _ hbw]

theorem product_key_decode_refines_spec_witness :
    67 ≤ (List.replicate 67 (0 : Nat)).length ∧
    get_windows_product_key (some (List.replicate 67 (0 : Nat))) =
      some (referenceDecode (((List.replicate 67 (0 : Nat)).drop 52).take 15)) :=
  ⟨by decide, product_key_decode_refines_spec (List.replicate 67 0) (by decide) (by decide)⟩

/-- C9: for every 15-element byte list fed to the decode loop, the remainder
`k` of every pass lies below 24 so indexing `key_map` is in bounds, every
decoded character is drawn from the alphabet, and the formatted key is a
29-character string made of five 5-character alphabet groups joined by
hyphens. -/
theorem product_key_decode_loop_safety (ds : List Nat) (h15 : ds.length = 15) :
    (∀ pid : List Nat, (passOnce pid).2 < 24) ∧
    (∀ c ∈ keyChars ds, c ∈ keyMap) ∧
    (formatKey (keyChars ds).reverse).length = 29 ∧
    (∃ gs : List String, gs.length = 5 ∧
      (∀ g ∈ gs, g.length = 5 ∧ ∀ c ∈ g.data, c ∈ keyMap) ∧
      formatKey (keyChars ds).reverse = String.intercalate "-" gs) := by
  have hcs : (keyChars ds).reverse.length = 25 := keyChars_reverse_length ds
  have hmem : ∀ c ∈ (keyChars ds).reverse, c ∈ keyMap := fun c hc =>
    keyChars_mem_keyMap ds c (List.mem_reverse.mp hc)
  refine ⟨fun pid => passOnce_snd_lt pid, keyChars_mem_keyMap ds,
    formatKey_length _ hcs, ?_⟩
  set cs := (keyChars ds).reverse with hcsdef
  refine ⟨[String.mk (cs.take 5), String.mk ((cs.drop 5).take 5),
    String.mk ((cs.drop 10).take 5), String.mk ((cs.drop 15).take 5),
    String.mk ((cs.drop 20).take 5)], rfl, ?_, ?_⟩
  · intro g hg
    have hsub : ∀ k : Nat, ∀ c ∈ (cs.drop k).take 5, c ∈ keyMap := fun k c hc =>
      hmem c (((List.take_sublist _ _).trans (List.drop_sublist _ _)).subset hc)
    have hlen5 : ∀ k : Nat, k ≤ 20 → ((cs.drop k).take 5).length = 5 := by
      intro k hk
      simp only [List.length_take, List.length_drop, hcs]
      omega
    have htake : ∀ c ∈ cs.take 5, c ∈ keyMap := fun c hc =>
      hmem c ((List.take_sublist _ _).subset hc)
    have htlen : (cs.take 5).length = 5 := by
      simp only [List.length_take, hcs]
      decide
    simp only [List.mem_cons, List.not_mem_nil, or_false] at hg
    rcases hg with h | h | h | h | h
    · exact h ▸ ⟨htlen, htake⟩
    · exact h ▸ ⟨hlen5 5 (by omega), hsub 5⟩
    · exact h ▸ ⟨hlen5 10 (by omega), hsub 10⟩
    · exact h ▸ ⟨hlen5 15 (by omega), hsub 15⟩
    · exact h ▸ ⟨hlen5 20 (by omega), hsub 20⟩
  · rw [formatKey_eq cs hcs]
    rfl

theorem product_key_decode_loop_safety_witness :
    (List.replicate 15 (0 : Nat)).length = 15 ∧
    (formatKey (keyChars (List.replicate 15 (0 : Nat))).reverse).length = 29 :=
  ⟨by decide, (product_key_decode_loop_safety (List.replicate 15 0) (by decide)).2.2.1⟩

/-! ## Product key masking (`get_windows_info`, lines 45-49)

`masked_key = "XXXXX-XXXXX-XXXXX-XXXXX-" + key[-5:] if key else "Not available"`
with a surrounding `except` that also yields `"Not available"`. -/

/-- Python slice `s[-n:]`: the last `n` characters of the string. -/
def lastChars (n : Nat) (s : String) : String :=
  String.mk (s.data.drop (s.data.length - n))

/-- The masked-product-key fragment of `get_windows_info`. -/
def maskedKey (blob : Option (List Nat)) : String :=
  match get_windows_product_key blob with
  | some key =>
    if key = "" then "Not available" else "XXXXX-XXXXX-XXXXX-XXXXX-" ++ lastChars 5 key
  | none => "Not available"

theorem get_windows_product_key_some {v : List Nat} {key : String}
    (h : get_windows_product_key (some v) = some key) :
    key = formatKey (keyChars ((v.drop 52).take 15)).reverse := by
  have h' : (if ((v.drop 52).take 15).length = 15 then
      some (formatKey (keyChars ((v.drop 52).take 15)).reverse) else none) = some key := h
  by_cases hc : ((v.drop 52).take 15).length = 15
  · rw [if_pos hc] at h'
    exact (Option.some.injEq _ _ ▸ h').symm
  · rw [if_neg hc] at h'
    cases h'

/-- C2: whenever the decode succeeds and yields a key, the displayed value is
the literal mask `XXXXX-XXXXX-XXXXX-XXXXX-` followed by exactly the last 5
characters of the decoded key, for a total of 29 characters; whenever the
decode fails or yields no key, the displayed value is `Not available`. -/
theorem product_key_masking (blob : Option (List Nat)) :
    (∀ key, get_windows_product_key blob = some key →
      maskedKey blob = "XXXXX-XXXXX-XXXXX-XXXXX-" ++ lastChars 5 key ∧
      (lastChars 5 key).length = 5 ∧
      (maskedKey blob).length = 29) ∧
    (get_windows_product_key blob = none → maskedKey blob = "Not available") := by
  constructor
  · intro key h
    have hkey : key.length = 29 := by
      match blob, h with
      | some v, h =>
        rw [get_windows_product_key_some h]
        exact formatKey_length _ (keyChars_reverse_length _)
    have hne : key ≠ "" := by
      intro he
      rw [he] at hkey
      cases hkey
    have hmask : maskedKey blob = "XXXXX-XXXXX-XXXXX-XXXXX-" ++ lastChars 5 key := by
      unfold maskedKey
      rw [h]
      show (if key = "" then "Not available"
        else "XXXXX-XXXXX-XXXXX-XXXXX-" ++ lastChars 5 key) = _
      rw [if_neg hne]
    have hdata : key.data.length = 29 := hkey
    have hlast : (lastChars 5 key).length = 5 := by
      simp only [lastChars, String.length_mk, List.length_drop, hdata]
    refine ⟨hmask, hlast, ?_⟩
    rw [hmask, String.length_append, hlast]
    rfl
  · intro h
    unfold maskedKey
    rw [h]

theorem product_key_masking_witness :
    get_windows_product_key (some (List.replicate 67 (0 : Nat))) =
      some "BBBBB-BBBBB-BBBBB-BBBBB-BBBBB" ∧
    maskedKey (some (List.replicate 67 (0 : Nat))) =
      "XXXXX-XXXXX-XXXXX-XXXXX-" ++ lastChars 5 "BBBBB-BBBBB-BBBBB-BBBBB-BBBBB" :=
  ⟨by decide, ((product_key_masking (some (List.replicate 67 0))).1
    "BBBBB-BBBBB-BBBBB-BBBBB-BBBBB" (by decide)).1⟩

/-! ## MAC address rendering (`get_system_info`, lines 33-34)

`':'.join(['{:02x}'.format((uuid.getnode() >> elements) & 0xff)
           for elements in range(0, 8*6, 8)][::-1])` -/

def hexDigits : List Char := "0123456789abcdef".data

def hexDigit (n : Nat) : Char := hexDigits.getD n '0'

/-- Python `'{:02x}'.format(b)` for a byte value `b < 256`: two lowercase hex
digits, zero-padded. -/
def toHex2 (b : Nat) : String := String.mk [hexDigit (b / 16 % 16), hexDigit (b % 16)]

/-- The `MAC Address` field: shifts 0, 8, ..., 40 extract the octets least
significant first, and the list is reversed before joining with colons. -/
def get_mac_address (node : Nat) : String :=
  String.intercalate ":"
    (((List.range 6).map fun i => toHex2 ((node >>> (8 * i)) &&& 0xff)).reverse)

/-- The rendering described by the spec: the six bytes of the node value as
two-digit lowercase hex octets joined by colons, most-significant first. -/
def macSpecFormat (node : Nat) : String :=
  String.intercalate ":"
    ((List.range 6).map fun i => toHex2 (node / 256 ^ (5 - i) % 256))

theorem shift_and_mask_eq_byte (node i : Nat) :
    (node >>> (8 * i)) &&& 0xff = node / 256 ^ i % 256 := by
  rw [Nat.shiftRight_eq_div_pow,
    show (0xff : Nat) = 2 ^ 8 - 1 from rfl, Nat.and_pow_two_sub_one_eq_mod,
    Nat.pow_mul]

/-- C4: for every node identifier, the `MAC Address` field equals the six
bytes of the identifier rendered as two-digit lowercase hexadecimal octets
joined by colons, most-significant octet first. -/
theorem mac_address_formatting (node : Nat) :
    get_mac_address node = macSpecFormat node ∧
    (∀ b : Nat, b < 256 →
      (toHex2 b).length = 2 ∧ ∀ c ∈ (toHex2 b).data, c ∈ hexDigits) := by
  constructor
  · unfold get_mac_address macSpecFormat
    rw [show List.range 6 = [0, 1, 2, 3, 4, 5] from rfl]
    simp only [List.map_cons, List.map_nil, List.reverse_cons, List.reverse_nil,
      List.nil_append, List.cons_append, shift_and_mask_eq_byte]
  · intro b _
    refine ⟨rfl, ?_⟩
    intro c hc
    have hmem : ∀ n : Nat, n < 16 → hexDigit n ∈ hexDigits := by
      intro n hn
      have hlen : n < hexDigits.length := by
        have : hexDigits.length = 16 := rfl
        omega
      rw [hexDigit, List.getD_eq_getElem hexDigits '0' hlen]
      exact List.getElem_mem hlen
    have hc' : c = hexDigit (b / 16 % 16) ∨ c = hexDigit (b % 16) := by
      simpa only [toHex2, List.mem_cons, List.not_mem_nil, or_false] using hc
    rcases hc' with h | h
    · exact h ▸ hmem _ (Nat.mod_lt _ (by norm_num))
    · exact h ▸ hmem _ (Nat.mod_lt _ (by norm_num))

theorem mac_address_formatting_witness :
    get_mac_address 0xaabbccddeeff = macSpecFormat 0xaabbccddeeff ∧
    (255 : Nat) < 256 ∧ (toHex2 255).length = 2 ∧
    get_mac_address 0xaabbccddeeff = "aa:bb:cc:dd:ee:ff" :=
  ⟨(mac_address_formatting 0xaabbccddeeff).1, by decide,
    ((mac_address_formatting 0xaabbccddeeff).2 255 (by decide)).1, by decide⟩

/-! ## Process snapshot (`get_running_processes`)

Enumeration yields, per process, either its `proc.info` record or one of the
exceptions `NoSuchProcess`, `AccessDenied`, `ZombieProcess` (the `except`
clause skips those).  `cpu_percent` is `none` when the reading is
unavailable (`x['cpu_percent'] or 0` maps it to 0 for sorting).  Python's
`list.sort(key=..., reverse=True)` is a stable descending sort, modelled by
`mergeSort` with the flipped comparison.  The outer `except` returns the
one-element `[{'Error': ...}]` list. -/

structure ProcInfo where
  pid : Nat
  name : String
  username : String
  memory_percent : ℚ
  cpu_percent : Option ℚ
deriving DecidableEq

inductive PsErr
  | noSuchProcess
  | accessDenied
  | zombieProcess
deriving DecidableEq

inductive ProcEntry
  | info (p : ProcInfo)
  | error (msg : String)
deriving DecidableEq

/-- Python `lambda x: x['cpu_percent'] or 0`. -/
def cpuKey (p : ProcInfo) : ℚ := p.cpu_percent.getD 0

/-- Comparison used by the stable descending sort. -/
def procLE (a b : ProcInfo) : Bool := decide (cpuKey b ≤ cpuKey a)

def get_running_processes (enum : Option (List (Except PsErr ProcInfo)))
    (limit : Nat) : List ProcEntry :=
  match enum with
  | some items =>
    let processes := items.filterMap fun x => x.toOption
    ((processes.mergeSort procLE).take limit).map ProcEntry.info
  | none => [ProcEntry.error "Unable to retrieve process information"]

def entryKey : ProcEntry → ℚ
  | .info p => cpuKey p
  | .error _ => 0

theorem procLE_trans : ∀ a b c : ProcInfo, procLE a b → procLE b c → procLE a c := by
  intro a b c hab hbc
  simp only [procLE, decide_eq_true_eq] at hab hbc ⊢
  exact le_trans hbc hab

theorem procLE_total : ∀ a b : ProcInfo, procLE a b || procLE b a := by
  intro a b
  simp only [procLE, Bool.or_eq_true, decide_eq_true_eq]
  exact le_total (cpuKey b) (cpuKey a)

theorem mem_kept_iff {items : List (Except PsErr ProcInfo)} {p : ProcInfo} :
    p ∈ items.filterMap (fun x => x.toOption) ↔ Except.ok p ∈ items := by
  rw [List.mem_filterMap]
  constructor
  · rintro ⟨x, hx, hxp⟩
    cases x with
    | ok q => cases hxp; exact hx
    | error e => cases hxp
  · intro h
    exact ⟨Except.ok p, h, rfl⟩

/-- The elements of the truncated stable sort that are tied at any key value
form, in order, an initial segment of the tied elements of the input. -/
theorem mergeSort_take_filter_key (l : List ProcInfo) (n : Nat) (k : ℚ) :
    ∃ t, ((l.mergeSort procLE).take n).filter (fun p => decide (cpuKey p = k)) ++ t
      = l.filter (fun p => decide (cpuKey p = k)) := by
  set pk : ProcInfo → Bool := fun p => decide (cpuKey p = k) with hpk
  set S := l.mergeSort procLE with hS
  have hkey : ∀ p, pk p = true → cpuKey p = k := by
    intro p hp
    simpa only [hpk, decide_eq_true_eq] using hp
  have hc_pair : (l.filter pk).Pairwise (fun a b => procLE a b = true) := by
    refine List.pairwise_of_forall_mem_list ?_
    intro a ha b hb
    have ha' := hkey a (List.of_mem_filter ha)
    have hb' := hkey b (List.of_mem_filter hb)
    simp only [procLE, decide_eq_true_eq, ha', hb']
    exact le_refl k
  have hsub : List.Sublist (l.filter pk) S :=
    List.sublist_mergeSort procLE_trans procLE_total hc_pair (List.filter_sublist l)
  have hperm : List.Perm (S.filter pk) (l.filter pk) :=
    (List.mergeSort_perm l procLE).filter pk
  have hfe : (l.filter pk).filter pk = l.filter pk :=
    List.filter_eq_self.mpr fun a ha => List.of_mem_filter ha
  have hsub2 : List.Sublist (l.filter pk) (S.filter pk) := hfe ▸ hsub.filter pk
  have heq : S.filter pk = l.filter pk :=
    (hsub2.eq_of_length hperm.length_eq.symm).symm
  refine ⟨(S.drop n).filter pk, ?_⟩
  rw [← List.filter_append, List.take_append_drop, heq]

/-- C5: the process snapshot has length at most 20, is sorted non-increasing
by CPU percent (an unavailable reading counted as zero), keeps tied entries
in enumeration order, and contains no entry for a process whose enumeration
raised access-denied, no-longer-exists, or zombie. -/
theorem process_snapshot_properties (items : List (Except PsErr ProcInfo)) (k : ℚ) :
    (get_running_processes (some items) 20).length ≤ 20 ∧
    (get_running_processes (some items) 20).Pairwise
      (fun a b => entryKey b ≤ entryKey a) ∧
    (∃ t, (get_running_processes (some items) 20).filter
        (fun e => decide (entryKey e = k)) ++ t
      = ((items.filterMap fun x => x.toOption).map ProcEntry.info).filter
          (fun e => decide (entryKey e = k))) ∧
    (∀ e ∈ get_running_processes (some items) 20,
      ∃ p, e = ProcEntry.info p ∧ Except.ok p ∈ items) := by
  set kept := items.filterMap (fun x => x.toOption) with hkept
  have hres : get_running_processes (some items) 20
      = ((kept.mergeSort procLE).take 20).map ProcEntry.info := rfl
  refine ⟨?_, ?_, ?_, ?_⟩
  · rw [hres, List.length_map, List.length_take]
    omega
  · rw [hres, List.pairwise_map]
    have hs : (kept.mergeSort procLE).Pairwise (fun a b => procLE a b = true) :=
      List.sorted_mergeSort procLE_trans procLE_total kept
    have ht : ((kept.mergeSort procLE).take 20).Pairwise
        (fun a b => procLE a b = true) :=
      hs.sublist (List.take_sublist 20 _)
    exact ht.imp fun h => by simpa only [procLE, decide_eq_true_eq] using h
  · obtain ⟨t, ht⟩ := mergeSort_take_filter_key kept 20 k
    refine ⟨t.map ProcEntry.info, ?_⟩
    rw [hres]
    have hcomp : ∀ l : List ProcInfo,
        (l.map ProcEntry.info).filter (fun e => decide (entryKey e = k))
          = (l.filter fun p => decide (cpuKey p = k)).map ProcEntry.info := by
      intro l
      rw [List.filter_map]
      rfl
    rw [hcomp, hcomp, ← List.map_append, ht]
  · intro e he
    rw [hres] at he
    obtain ⟨p, hp, rfl⟩ := List.mem_map.mp he
    refine ⟨p, rfl, ?_⟩
    have hp' : p ∈ kept.mergeSort procLE := List.mem_of_mem_take hp
    exact mem_kept_iff.mp (List.mem_mergeSort.mp hp')

theorem process_snapshot_properties_witness :
    (get_running_processes (some [Except.ok ⟨1, "a", "u", 0, some 1⟩,
        Except.error PsErr.accessDenied]) 20).length ≤ 20 ∧
    (∃ p, ProcEntry.info ⟨1, "a", "u", 0, some 1⟩ = ProcEntry.info p ∧
      Except.ok p ∈ [Except.ok ⟨1, "a", "u", 0, some 1⟩,
        Except.error PsErr.accessDenied]) :=
  ⟨(process_snapshot_properties [Except.ok ⟨1, "a", "u", 0, some 1⟩,
      Except.error PsErr.accessDenied] 0).1,
   (process_snapshot_properties [Except.ok ⟨1, "a", "u", 0, some 1⟩,
      Except.error PsErr.accessDenied] 0).2.2.2
      (ProcEntry.info ⟨1, "a", "u", 0, some 1⟩)
      (by simp [get_running_processes, Except.toOption, List.mergeSort_singleton])⟩

/-- C10: when enumeration itself fails, the probe returns the one-element
list containing the single `Error` record; on the success path every element
of the returned list is a process record, never an error mapping. -/
theorem process_snapshot_failure_shape (limit : Nat) :
    get_running_processes none limit
      = [ProcEntry.error "Unable to retrieve process information"] ∧
    (get_running_processes none limit).length = 1 ∧
    (∀ items, ∀ e ∈ get_running_processes (some items) limit,
      ∃ p, e = ProcEntry.info p) := by
  refine ⟨rfl, rfl, ?_⟩
  intro items e he
  obtain ⟨p, _, rfl⟩ := List.mem_map.mp he
  exact ⟨p, rfl⟩

theorem process_snapshot_failure_shape_witness :
    get_running_processes none 20
      = [ProcEntry.error "Unable to retrieve process information"] ∧
    (∃ p, ProcEntry.info ⟨1, "a", "u", 0, none⟩ = ProcEntry.info p) :=
  ⟨(process_snapshot_failure_shape 20).1,
   (process_snapshot_failure_shape 20).2.2
     [Except.ok ⟨1, "a", "u", 0, none⟩] (ProcEntry.info ⟨1, "a", "u", 0, none⟩)
     (by simp [get_running_processes, Except.toOption, List.mergeSort_singleton])⟩

/-! ## Hardware probe (`get_hardware_info`)

Three independent `wmic` invocations, each parsed with
`result.stdout.strip().split('\n')`, `lines[1].strip().split()`.  Each
subprocess result is injected as `Option CmdResult` (`none` models the call
raising). -/

structure CmdResult where
  returncode : Int
  stdout : String
deriving DecidableEq

/-- Split a character list at every separator character (Python
`str.split(sep)` semantics: empty pieces are kept). -/
def splitByPred (p : Char → Bool) : List Char → List (List Char)
  | [] => [[]]
  | c :: cs =>
    let r := splitByPred p cs
    if p c then [] :: r
    else
      match r with
      | h :: t => (c :: h) :: t
      | [] => [[c]]

/-- Python `s.strip()`. -/
def pyStrip (s : String) : String :=
  String.mk ((s.data.dropWhile Char.isWhitespace).reverse.dropWhile Char.isWhitespace).reverse

/-- Python `s.split('\n')`. -/
def pySplitLines (s : String) : List String :=
  (splitByPred (fun c => c == '\n') s.data).map String.mk

/-- Python `s.split()` (no argument): split on whitespace runs, dropping
empty pieces. -/
def pySplitWs (s : String) : List String :=
  ((splitByPred Char.isWhitespace s.data).map String.mk).filter (fun t => t != "")

/-- Parse of the two-column `wmic` queries (`computersystem get
model,manufacturer` and `baseboard get product,manufacturer`): first
whitespace token of the second line, and the join of the rest. -/
def wmicTwoColumns (r : Option CmdResult) : Option (String × String) :=
  match r with
  | none => none
  | some res =>
    if res.returncode = 0 then
      match (pySplitLines (pyStrip res.stdout)).get? 1 with
      | some l1 =>
        match pySplitWs (pyStrip l1) with
        | p0 :: p1 :: rest => some (p0, String.intercalate " " (p1 :: rest))
        | _ => none
      | none => none
    else none

/-- Parse of `wmic bios get serialnumber`: the stripped second line. -/
def wmicSingleValue (r : Option CmdResult) : Option String :=
  match r with
  | none => none
  | some res =>
    if res.returncode = 0 then
      match (pySplitLines (pyStrip res.stdout)).get? 1 with
      | some l1 => some (pyStrip l1)
      | none => none
    else none

def get_hardware_info (r1 r2 r3 : Option CmdResult) : List (String × String) :=
  let f1 := match wmicTwoColumns r1 with
    | some (m, mo) => [("Manufacturer", m), ("Model", mo)]
    | none => []
  let f2 := match wmicSingleValue r2 with
    | some s => [("Serial Number", s)]
    | none => []
  let f3 := match wmicTwoColumns r3 with
    | some (m, mo) => [("Motherboard Manufacturer", m), ("Motherboard Model", mo)]
    | none => []
  let fields := f1 ++ f2 ++ f3
  if fields.isEmpty then [("Error", "Unable to retrieve hardware information")] else fields

/-- C8: the hardware probe collapses to the single `Error` field exactly when
all three inventory queries fail; under partial success the result is exactly
the concatenation of the fields of the succeeding queries and contains no
`Error` field. -/
theorem hardware_probe_partial_success (r1 r2 r3 : Option CmdResult) :
    (get_hardware_info r1 r2 r3 = [("Error", "Unable to retrieve hardware information")]
      ↔ wmicTwoColumns r1 = none ∧ wmicSingleValue r2 = none ∧ wmicTwoColumns r3 = none) ∧
    ((wmicTwoColumns r1).isSome ∨ (wmicSingleValue r2).isSome ∨ (wmicTwoColumns r3).isSome →
      get_hardware_info r1 r2 r3 =
        (match wmicTwoColumns r1 with
          | some (m, mo) => [("Manufacturer", m), ("Model", mo)]
          | none => []) ++
        (match wmicSingleValue r2 with
          | some s => [("Serial Number", s)]
          | none => []) ++
        (match wmicTwoColumns r3 with
          | some (m, mo) => [("Motherboard Manufacturer", m), ("Motherboard Model", mo)]
          | none => []) ∧
      ∀ v, ("Error", v) ∉ get_hardware_info r1 r2 r3) := by
  rcases hq1 : wmicTwoColumns r1 with _ | ⟨m1, mo1⟩ <;>
    rcases hq2 : wmicSingleValue r2 with _ | s2 <;>
    rcases hq3 : wmicTwoColumns r3 with _ | ⟨m3, mo3⟩ <;>
    simp_all [get_hardware_info]

theorem hardware_probe_partial_success_witness :
    ((wmicTwoColumns (some ⟨0, " Manufacturer  Model \n Dell  XPS 13 \n"⟩)).isSome ∨
      (wmicSingleValue none).isSome ∨ (wmicTwoColumns none).isSome) ∧
    get_hardware_info (some ⟨0, " Manufacturer  Model \n Dell  XPS 13 \n"⟩) none none
      = [("Manufacturer", "Dell"), ("Model", "XPS 13")] ∧
    (∀ v, ("Error", v) ∉ get_hardware_info
      (some ⟨0, " Manufacturer  Model \n Dell  XPS 13 \n"⟩) none none) :=
  ⟨by decide,
   by
    have h := (hardware_probe_partial_success
      (some ⟨0, " Manufacturer  Model \n Dell  XPS 13 \n"⟩) none none).2 (by decide)
    rw [h.1]
    decide,
   ((hardware_probe_partial_success
      (some ⟨0, " Manufacturer  Model \n Dell  XPS 13 \n"⟩) none none).2 (by decide)).2⟩

/-! ## Office probe (`get_office_info`)

The registry is injected as an abstract view: `subkeys p` is the list of
subkey names of path `p` (`none` models `OpenKey` raising), and
`value p name` is the string value `name` under path `p` (`none` models
`QueryValueEx`/`OpenKey` raising).  `pathExists` models `os.path.exists`,
and the two program-files roots are the resolved environment values. -/

structure RegistryView where
  subkeys : String → Option (List String)
  value : String → String → Option String

def office_versions : List (String × String) :=
  [("16.0", "Office 2016/2019/2021/365"),
   ("15.0", "Office 2013"),
   ("14.0", "Office 2010"),
   ("12.0", "Office 2007"),
   ("11.0", "Office 2003")]

def office_paths : List String :=
  ["SOFTWARE\\Microsoft\\Office", "SOFTWARE\\Wow6432Node\\Microsoft\\Office"]

structure OfficeInfo where
  version : Option String
  installPath : Option String
  detectedVia : Option String
  status : Option String
deriving DecidableEq

def emptyOfficeInfo : OfficeInfo := ⟨none, none, none, none⟩

/-- Python `subkey_name in office_versions`. -/
def isVersionToken (s : String) : Bool := (office_versions.lookup s).isSome

/-- The body of `for office_path in office_paths`: enumerate subkeys, process
the first one that is a known version token, then `break`.  The
`except: continue` around the whole block maps a failing `OpenKey` to the
unchanged accumulator. -/
def scanPath (reg : RegistryView) (acc : OfficeInfo) (officePath : String) : OfficeInfo :=
  match reg.subkeys officePath with
  | none => acc
  | some lst =>
    match lst.find? isVersionToken with
    | none => acc
    | some sk =>
      let ver := (office_versions.lookup sk).getD ""
      let ipath :=
        match reg.value (officePath ++ "\\" ++ sk ++ "\\Common\\InstallRoot") "Path" with
        | some p => some p
        | none => acc.installPath
      let det :=
        match reg.value (officePath ++ "\\" ++ sk ++ "\\Word\\InstallRoot") "Path" with
        | some _ => "Word"
        | none =>
          match reg.value (officePath ++ "\\" ++ sk ++ "\\Excel\\InstallRoot") "Path" with
          | some _ => "Excel"
          | none => "Registry"
      { version := some ver, installPath := ipath, detectedVia := some det,
        status := acc.status }

def get_office_info (reg : RegistryView) (programFiles programFilesX86 : String)
    (pathExists : String → Bool) : OfficeInfo :=
  let afterReg := office_paths.foldl (scanPath reg) emptyOfficeInfo
  if afterReg.version.isNone then
    let common_paths := [programFiles ++ "\\Microsoft Office",
                         programFilesX86 ++ "\\Microsoft Office"]
    match common_paths.find? pathExists with
    | some p => { version := some "Office (detected via file system)",
                  installPath := some p, detectedVia := none, status := none }
    | none => { version := none, installPath := none, detectedVia := none,
                status := some "Not detected" }
  else afterReg

/-- A store that contains the token `16.0` but enumerates `15.0` first. -/
def cexOfficeReg : RegistryView where
  subkeys := fun p =>
    if p = "SOFTWARE\\Microsoft\\Office" then some ["15.0", "16.0"] else none
  value := fun _ _ => none

/-- Counterexample to C7 as stated: a store containing the version token
`16.0` for which the probe nevertheless reports `Office 2013`, because an
earlier-enumerated `15.0` entry wins the first-match scan. -/
theorem office_claim_counterexample :
    "16.0" ∈ (cexOfficeReg.subkeys "SOFTWARE\\Microsoft\\Office").getD [] ∧
    (get_office_info cexOfficeReg "C:\\Program Files" "C:\\Program Files (x86)"
      (fun _ => false)).version = some "Office 2013" ∧
    (get_office_info cexOfficeReg "C:\\Program Files" "C:\\Program Files (x86)"
      (fun _ => false)).version ≠ some "Office 2016/2019/2021/365" := by
  decide

theorem scanPath_no_match {reg : RegistryView} {p : String} (acc : OfficeInfo)
    (h : ((reg.subkeys p).getD []).find? isVersionToken = none) :
    scanPath reg acc p = acc := by
  cases hs : reg.subkeys p with
  | none => simp only [scanPath, hs]
  | some l =>
    rw [hs] at h
    simp only [Option.getD_some] at h
    simp only [scanPath, hs, h]

theorem scanPath_match {reg : RegistryView} {p : String} {l : List String}
    {sk : String} (acc : OfficeInfo) (hs : reg.subkeys p = some l)
    (hf : l.find? isVersionToken = some sk) :
    (scanPath reg acc p).version = some ((office_versions.lookup sk).getD "") ∧
    (scanPath reg acc p).detectedVia = some
      (match reg.value (p ++ "\\" ++ sk ++ "\\Word\\InstallRoot") "Path" with
       | some _ => "Word"
       | none =>
         match reg.value (p ++ "\\" ++ sk ++ "\\Excel\\InstallRoot") "Path" with
         | some _ => "Excel"
         | none => "Registry") := by
  simp [scanPath, hs, hf]

theorem find_some_of_getD {o : Option (List String)} {sk : String}
    (h : (o.getD []).find? isVersionToken = some sk) :
    ∃ l, o = some l ∧ l.find? isVersionToken = some sk := by
  cases o with
  | none => cases h
  | some l => exact ⟨l, rfl, h⟩

/-- C7, amended: (a) if along every registry path the first matching
version-token subkey (when any matches) is `16.0`, and some path does match,
the probe reports `Office 2016/2019/2021/365`; (b) if no version token
matches anywhere and both conventional filesystem locations are absent, the
result is the record whose only field is `Status = "Not detected"`; (c) if a
version token matches but neither the Word nor the Excel sub-application
path is discoverable, `Detected Via` defaults to `Registry` (the
`Common\InstallRoot` value may or may not be present). -/
theorem office_probe_detection (reg : RegistryView) (pf pfx86 : String)
    (pe : String → Bool) :
    ((∀ p ∈ office_paths,
        ((reg.subkeys p).getD []).find? isVersionToken = none ∨
        ((reg.subkeys p).getD []).find? isVersionToken = some "16.0") →
      (∃ p ∈ office_paths,
        ((reg.subkeys p).getD []).find? isVersionToken = some "16.0") →
      (get_office_info reg pf pfx86 pe).version = some "Office 2016/2019/2021/365") ∧
    ((∀ p ∈ office_paths, ((reg.subkeys p).getD []).find? isVersionToken = none) →
      pe (pf ++ "\\Microsoft Office") = false →
      pe (pfx86 ++ "\\Microsoft Office") = false →
      get_office_info reg pf pfx86 pe
        = ⟨none, none, none, some "Not detected"⟩) ∧
    ((∀ p sk : String,
        reg.value (p ++ "\\" ++ sk ++ "\\Word\\InstallRoot") "Path" = none ∧
        reg.value (p ++ "\\" ++ sk ++ "\\Excel\\InstallRoot") "Path" = none) →
      (∃ p ∈ office_paths, (((reg.subkeys p).getD []).find? isVersionToken).isSome) →
      (get_office_info reg pf pfx86 pe).detectedVia = some "Registry") := by
  have hpaths : office_paths = ["SOFTWARE\\Microsoft\\Office",
      "SOFTWARE\\Wow6432Node\\Microsoft\\Office"] := rfl
  set p1 := "SOFTWARE\\Microsoft\\Office" with hp1
  set p2 := "SOFTWARE\\Wow6432Node\\Microsoft\\Office" with hp2
  have hfold : office_paths.foldl (scanPath reg) emptyOfficeInfo
      = scanPath reg (scanPath reg emptyOfficeInfo p1) p2 := rfl
  refine ⟨?_, ?_, ?_⟩
  · intro hall hex
    have h1 := hall p1 (by rw [hpaths]; exact List.mem_cons_self _ _)
    have h2 := hall p2 (by rw [hpaths]; simp)
    have hver : (office_paths.foldl (scanPath reg) emptyOfficeInfo).version
        = some "Office 2016/2019/2021/365" := by
      rw [hfold]
      rcases h2 with h2 | h2
      · rw [scanPath_no_match _ h2]
        rcases h1 with h1 | h1
        · exfalso
          obtain ⟨p, hp, hfind⟩ := hex
          rw [hpaths] at hp
          simp only [List.mem_cons, List.not_mem_nil, or_false] at hp
          rcases hp with rfl | rfl
          · rw [h1] at hfind; cases hfind
          · rw [h2] at hfind; cases hfind
        · obtain ⟨l, hs, hf⟩ := find_some_of_getD h1
          exact (scanPath_match _ hs hf).1
      · obtain ⟨l, hs, hf⟩ := find_some_of_getD h2
        exact (scanPath_match _ hs hf).1
    simp only [get_office_info, hver, Option.isNone_some, Bool.false_eq_true,
      if_false]
  · intro hall hpe1 hpe2
    have h1 := hall p1 (by rw [hpaths]; exact List.mem_cons_self _ _)
    have h2 := hall p2 (by rw [hpaths]; simp)
    have hreg : office_paths.foldl (scanPath reg) emptyOfficeInfo = emptyOfficeInfo := by
      rw [hfold, scanPath_no_match _ h2, scanPath_no_match _ h1]
    simp only [get_office_info]
    rw [hreg]
    simp [emptyOfficeInfo, List.find?, hpe1, hpe2]
  · intro hval hex
    have hstep : ∀ (acc : OfficeInfo) (p : String),
        ((scanPath reg acc p).detectedVia = some "Registry" ∧
          (scanPath reg acc p).version.isNone = false) ∨
        scanPath reg acc p = acc := by
      intro acc p
      cases hs : reg.subkeys p with
      | none => exact Or.inr (by simp only [scanPath, hs])
      | some l =>
        cases hf : l.find? isVersionToken with
        | none => exact Or.inr (by simp only [scanPath, hs, hf])
        | some sk =>
          refine Or.inl ⟨?_, ?_⟩
          · have h := (scanPath_match acc hs hf).2
            rw [(hval p sk).1, (hval p sk).2] at h
            exact h
          · rw [(scanPath_match acc hs hf).1]
            rfl
    have hnone : ∀ p', scanPath reg emptyOfficeInfo p' = emptyOfficeInfo →
        (((reg.subkeys p').getD []).find? isVersionToken).isSome → False := by
      intro p' hid hsome
      obtain ⟨sk, hsk⟩ := Option.isSome_iff_exists.mp hsome
      obtain ⟨l, hs, hf⟩ := find_some_of_getD hsk
      have hv := (scanPath_match emptyOfficeInfo hs hf).1
      rw [hid] at hv
      cases hv
    have hA : (office_paths.foldl (scanPath reg) emptyOfficeInfo).detectedVia
          = some "Registry" ∧
        (office_paths.foldl (scanPath reg) emptyOfficeInfo).version.isNone = false := by
      rw [hfold]
      rcases hstep (scanPath reg emptyOfficeInfo p1) p2 with h | h
      · exact h
      · rw [h]
        rcases hstep emptyOfficeInfo p1 with h1 | h1
        · exact h1
        · exfalso
          obtain ⟨p, hp, hfind⟩ := hex
          rw [hpaths] at hp
          simp only [List.mem_cons, List.not_mem_nil, or_false] at hp
          rcases hp with rfl | rfl
          · exact hnone _ h1 hfind
          · have h2id : scanPath reg emptyOfficeInfo p2 = emptyOfficeInfo := by
              rw [h1] at h
              exact h
            exact hnone _ h2id hfind
    simp only [get_office_info, hA.2, Bool.false_eq_true, if_false]
    exact hA.1

def witOfficeRegA : RegistryView where
  subkeys := fun p =>
    if p = "SOFTWARE\\Microsoft\\Office" then some ["16.0"] else none
  value := fun _ _ => none

def witOfficeRegB : RegistryView where
  subkeys := fun _ => none
  value := fun _ _ => none

theorem office_probe_detection_witness :
    (get_office_info witOfficeRegA "C:\\Program Files" "C:\\Program Files (x86)"
      (fun _ => false)).version = some "Office 2016/2019/2021/365" ∧
    get_office_info witOfficeRegB "C:\\Program Files" "C:\\Program Files (x86)"
      (fun _ => false) = ⟨none, none, none, some "Not detected"⟩ ∧
    (get_office_info witOfficeRegA "C:\\Program Files" "C:\\Program Files (x86)"
      (fun _ => false)).detectedVia = some "Registry" :=
  ⟨(office_probe_detection witOfficeRegA "C:\\Program Files" "C:\\Program Files (x86)"
      (fun _ => false)).1 (by decide) (by decide),
   (office_probe_detection witOfficeRegB "C:\\Program Files" "C:\\Program Files (x86)"
      (fun _ => false)).2.1 (by decide) rfl rfl,
   (office_probe_detection witOfficeRegA "C:\\Program Files" "C:\\Program Files (x86)"
      (fun _ => false)).2.2 (fun _ _ => ⟨rfl, rfl⟩) (by decide)⟩

/-! ## Size rendering (`get_memory_info`, `get_disk_info`)

Python renders `f"{x / (1024**3):.2f} GB"`.  The float pipeline computes the
correctly-rounded double of `x / 2^30` and formats it with two decimals,
rounding half to even; here the same quotient is divided and rounded
exactly over the rationals. -/

/-- Round `n / d` to the nearest integer, ties to even. -/
def roundHalfEven (n d : Nat) : Nat :=
  let q := n / d
  let r := n % d
  if 2 * r < d then q
  else if d < 2 * r then q + 1
  else if q % 2 = 0 then q else q + 1

/-- Two-digit zero-padded decimal rendering of `n % 100`. -/
def twoDigits (n : Nat) : String :=
  String.mk [Char.ofNat (48 + n / 10 % 10), Char.ofNat (48 + n % 10)]

/-- Python `f"{b / (1024**3):.2f} GB"`. -/
def formatGB (b : Nat) : String :=
  let h := roundHalfEven (b * 100) (2 ^ 30)
  toString (h / 100) ++ "." ++ twoDigits (h % 100) ++ " GB"

/-- Python `f"{b / (1024**2):.2f} MB"`. -/
def formatMB (b : Nat) : String :=
  let h := roundHalfEven (b * 100) (2 ^ 20)
  toString (h / 100) ++ "." ++ twoDigits (h % 100) ++ " MB"

structure VirtualMemory where
  total : Nat
  available : Nat
  used : Nat
  percentRepr : String
deriving DecidableEq

structure SwapMemory where
  total : Nat
  used : Nat
  percentRepr : String
deriving DecidableEq

/-- Embedding of `get_memory_info`; `none` models `psutil.virtual_memory()` or
`psutil.swap_memory()` raising.  Percentages are injected pre-rendered
(their `str(float)` rendering carries no logic). -/
def get_memory_info (m : Option (VirtualMemory × SwapMemory)) : List (String × String) :=
  match m with
  | none => [("Error", "Unable to retrieve memory information")]
  | some (vm, sm) =>
    [("Total RAM", formatGB vm.total),
     ("Available RAM", formatGB vm.available),
     ("Used RAM", formatGB vm.used),
     ("RAM Usage", vm.percentRepr ++ "%"),
     ("Total Swap", formatGB sm.total),
     ("Used Swap", formatGB sm.used),
     ("Swap Usage", sm.percentRepr ++ "%")]

inductive FieldVal
  | str (s : String)
  | table (t : List (String × String))
deriving DecidableEq

structure DiskUsage where
  total : Nat
  used : Nat
  free : Nat
  percentRepr : String
deriving DecidableEq

structure PartitionInfo where
  device : String
  mountpoint : String
  fstype : String
  usage : Option DiskUsage
deriving DecidableEq

structure DiskCounters where
  read_count : Nat
  write_count : Nat
  read_bytes : Nat
  write_bytes : Nat
deriving DecidableEq

/-- Embedding of `get_disk_info`; a partition whose `disk_usage` call raises
(`usage = none`) is skipped via `except: continue`; the `IO Statistics`
entry is omitted when `disk_io_counters()` returns nothing. -/
def get_disk_info (d : Option (List PartitionInfo × Option DiskCounters)) :
    List (String × FieldVal) :=
  match d with
  | none => [("Error", FieldVal.str "Unable to retrieve disk information")]
  | some (parts, ctrs) =>
    (parts.filterMap fun part =>
      match part.usage with
      | none => none
      | some u => some (part.device, FieldVal.table
          [("File System", part.fstype),
           ("Total Size", formatGB u.total),
           ("Used", formatGB u.used),
           ("Free", formatGB u.free),
           ("Usage", u.percentRepr ++ "%"),
           ("Mount Point", part.mountpoint)]))
    ++ (match ctrs with
        | some c => [("IO Statistics", FieldVal.table
            [("Read Count", toString c.read_count),
             ("Write Count", toString c.write_count),
             ("Read Bytes", formatMB c.read_bytes),
             ("Write Bytes", formatMB c.write_bytes)])]
        | none => [])

theorem roundHalfEven_close (n d : Nat) (hd : 0 < d) :
    |(roundHalfEven n d : ℚ) - (n : ℚ) / (d : ℚ)| ≤ 1 / 2 := by
  have hdQ : (0 : ℚ) < (d : ℚ) := by exact_mod_cast hd
  have hdne : (d : ℚ) ≠ 0 := ne_of_gt hdQ
  have hmod : n % d < d := Nat.mod_lt _ hd
  have hsplit : (n : ℚ) = (d : ℚ) * (↑(n / d)) + ↑(n % d) := by
    exact_mod_cast (Nat.div_add_mod n d).symm
  have hnd : (n : ℚ) / (d : ℚ) = (↑(n / d)) + (↑(n % d)) / (d : ℚ) := by
    rw [hsplit]
    field_simp
    ring
  have hr0 : (0 : ℚ) ≤ (↑(n % d)) / (d : ℚ) :=
    div_nonneg (by positivity) (le_of_lt hdQ)
  have hr1 : (↑(n % d)) / (d : ℚ) < 1 := by
    rw [div_lt_one hdQ]
    exact_mod_cast hmod
  simp only [roundHalfEven]
  split_ifs with hlt hgt heven
  · have h2r : 2 * (↑(n % d) : ℚ) < (d : ℚ) := by exact_mod_cast hlt
    rw [hnd]
    have : ((↑(n / d) : ℚ)) - (↑(n / d) + ↑(n % d) / ↑d) = -(↑(n % d) / ↑d) := by ring
    rw [this, abs_neg, abs_of_nonneg hr0, div_le_iff hdQ]
    linarith
  · have h2r : (d : ℚ) < 2 * (↑(n % d) : ℚ) := by exact_mod_cast hgt
    rw [hnd]
    push_cast
    have heq : ((↑(n / d) : ℚ) + 1) - (↑(n / d) + ↑(n % d) / ↑d) = 1 - ↑(n % d) / ↑d := by
      ring
    rw [heq, abs_of_nonneg (by linarith)]
    have hge : (1 : ℚ) / 2 ≤ ↑(n % d) / ↑d := by
      rw [div_le_div_iff (by norm_num) hdQ]
      linarith
    linarith
  · have h2r : 2 * (↑(n % d) : ℚ) = (d : ℚ) := by
      exact_mod_cast le_antisymm (le_of_not_lt hgt) (le_of_not_lt hlt)
    have hhalf : (↑(n % d) : ℚ) / ↑d = 1 / 2 := by
      rw [div_eq_iff hdne]
      linarith
    rw [hnd, hhalf]
    have : ((↑(n / d) : ℚ)) - (↑(n / d) + 1 / 2) = -(1 / 2) := by ring
    rw [this, abs_neg, abs_of_nonneg (by norm_num)]
  · have h2r : 2 * (↑(n % d) : ℚ) = (d : ℚ) := by
      exact_mod_cast le_antisymm (le_of_not_lt hgt) (le_of_not_lt hlt)
    have hhalf : (↑(n % d) : ℚ) / ↑d = 1 / 2 := by
      rw [div_eq_iff hdne]
      linarith
    rw [hnd, hhalf]
    push_cast
    have : ((↑(n / d) : ℚ) + 1) - (↑(n / d) + 1 / 2) = 1 / 2 := by ring
    rw [this, abs_of_nonneg (by norm_num)]

theorem twoDigits_isDigit (n : Nat) : ∀ c ∈ (twoDigits n).data, c.isDigit := by
  have hdig : ∀ k : Nat, k ≤ 9 → (Char.ofNat (48 + k)).isDigit = true := by
    intro k hk
    interval_cases k <;> decide
  intro c hc
  have hc' : c = Char.ofNat (48 + n / 10 % 10) ∨ c = Char.ofNat (48 + n % 10) := by
    simpa only [twoDigits, List.mem_cons, List.not_mem_nil, or_false] using hc
  rcases hc' with h | h
  · exact h ▸ hdig _ (by omega)
  · exact h ▸ hdig _ (by omega)

/-- C6: every size field is the byte count divided by `2^30`, rounded to two
decimal places and suffixed ` GB` (the rendered hundredths are within half a
hundredth of the exact quotient); in particular `2^30` bytes render as
`1.00 GB`; and the memory and disk probes render their size fields through
exactly this formatter. -/
theorem size_field_rendering :
    (∀ b : Nat, ∃ h : Nat,
      formatGB b = toString (h / 100) ++ "." ++ twoDigits (h % 100) ++ " GB" ∧
      (twoDigits (h % 100)).length = 2 ∧
      (∀ c ∈ (twoDigits (h % 100)).data, c.isDigit) ∧
      |(h : ℚ) / 100 - (b : ℚ) / 2 ^ 30| ≤ 1 / 200) ∧
    formatGB (2 ^ 30) = "1.00 GB" ∧
    (∀ vm sm, (get_memory_info (some (vm, sm))).lookup "Total RAM"
      = some (formatGB vm.total)) ∧
    (∀ parts ctrs p u, p ∈ parts → p.usage = some u →
      (p.device, FieldVal.table
        [("File System", p.fstype),
         ("Total Size", formatGB u.total),
         ("Used", formatGB u.used),
         ("Free", formatGB u.free),
         ("Usage", u.percentRepr ++ "%"),
         ("Mount Point", p.mountpoint)]) ∈ get_disk_info (some (parts, ctrs))) := by
  refine ⟨?_, by decide, fun vm sm => rfl, ?_⟩
  · intro b
    refine ⟨roundHalfEven (b * 100) (2 ^ 30), rfl, rfl, twoDigits_isDigit _, ?_⟩
    have hclose := roundHalfEven_close (b * 100) (2 ^ 30) (by norm_num)
    have hb : (b : ℚ) / 2 ^ 30 = ((b * 100 : Nat) : ℚ) / (2 ^ 30 : Nat) / 100 := by
      push_cast
      ring
    rw [hb]
    have heq : (roundHalfEven (b * 100) (2 ^ 30) : ℚ) / 100
        - ((b * 100 : Nat) : ℚ) / ((2 ^ 30 : Nat) : ℚ) / 100
        = ((roundHalfEven (b * 100) (2 ^ 30) : ℚ)
            - ((b * 100 : Nat) : ℚ) / ((2 ^ 30 : Nat) : ℚ)) / 100 := by
      ring
    rw [heq, abs_div, abs_of_nonneg (by norm_num : (0:ℚ) ≤ 100)]
    linarith
  · intro parts ctrs p u hp hu
    apply List.mem_append_left
    rw [List.mem_filterMap]
    exact ⟨p, hp, by rw [hu]⟩

theorem size_field_rendering_witness :
    ((⟨"C:", "C:\\", "NTFS", some ⟨2 ^ 30, 0, 2 ^ 30, "0.0"⟩⟩ : PartitionInfo).device,
      FieldVal.table
        [("File System", "NTFS"),
         ("Total Size", formatGB (2 ^ 30)),
         ("Used", formatGB 0),
         ("Free", formatGB (2 ^ 30)),
         ("Usage", "0.0" ++ "%"),
         ("Mount Point", "C:\\")]) ∈
      get_disk_info (some ([⟨"C:", "C:\\", "NTFS", some ⟨2 ^ 30, 0, 2 ^ 30, "0.0"⟩⟩], none)) ∧
    formatGB (2 ^ 30) = "1.00 GB" :=
  ⟨size_field_rendering.2.2.2
      [⟨"C:", "C:\\", "NTFS", some ⟨2 ^ 30, 0, 2 ^ 30, "0.0"⟩⟩] none
      ⟨"C:", "C:\\", "NTFS", some ⟨2 ^ 30, 0, 2 ^ 30, "0.0"⟩⟩
      ⟨2 ^ 30, 0, 2 ^ 30, "0.0"⟩ (List.mem_cons_self _ _) rfl,
   size_field_rendering.2.1⟩

/-! ## Identity probe, OS probe, remaining probes, and the aggregation in `main`

`get_system_info` is the one probe with no enclosing `try`/`except`: a
failing `socket.gethostbyname(socket.gethostname())` call propagates out of
the probe and out of the aggregation.  All other probes catch their faults
and degrade to an `Error` field. -/

structure PlatformFacts where
  systemName : String
  nodeName : String
  release : String
  version : String
  machine : String
  processor : String
  platformFull : String
  architecture : String
  hostname : String

def get_system_info (pfacts : PlatformFacts) (hostnameLookup : Except String String)
    (node : Nat) : Except String (List (String × String)) :=
  match hostnameLookup with
  | .error e => .error e
  | .ok ip => .ok
    [("System", pfacts.systemName),
     ("Node Name", pfacts.nodeName),
     ("Release", pfacts.release),
     ("Version", pfacts.version),
     ("Machine", pfacts.machine),
     ("Processor", pfacts.processor),
     ("Platform", pfacts.platformFull),
     ("Architecture", pfacts.architecture),
     ("Hostname", pfacts.hostname),
     ("IP Address", ip),
     ("MAC Address", get_mac_address node)]

structure WinEnv where
  edition : String
  winVersion : String
  build : String
  productKeyBlob : Option (List Nat)
  productId : Option String
  lastUpdate : String
  installDate : String

/-- Embedding of `get_windows_info`: the version triple comes from `platform.win32_ver()`;
`Product ID` falls back to `"Not available"`, the update and install dates to
`"Unknown"` (their command scraping is injected pre-parsed). -/
def get_windows_info (w : WinEnv) : List (String × String) :=
  [("Windows Edition", w.edition),
   ("Windows Version", w.winVersion),
   ("Windows Build", w.build),
   ("Product ID", w.productId.getD "Not available"),
   ("Product Key", maskedKey w.productKeyBlob),
   ("Last Update", w.lastUpdate),
   ("Installation Date", w.installDate)]

structure CpuData where
  physicalCores : Nat
  totalCores : Nat
  maxFreqRepr : Option String
  currentFreqRepr : Option String
  usagePercentRepr : String
  cpuName : Option String

/-- Embedding of `get_cpu_info`; `none` models any psutil call raising; a `none`
frequency models falsy `psutil.cpu_freq()`; the best-effort `wmic cpu get
name` query only adds the `Name` field. -/
def get_cpu_info (c : Option CpuData) : List (String × String) :=
  match c with
  | none => [("Error", "Unable to retrieve CPU information")]
  | some c =>
    [("Physical Cores", toString c.physicalCores),
     ("Total Cores", toString c.totalCores),
     ("Max Frequency", (c.maxFreqRepr.map (· ++ " MHz")).getD "N/A"),
     ("Current Frequency", (c.currentFreqRepr.map (· ++ " MHz")).getD "N/A"),
     ("CPU Usage", c.usagePercentRepr ++ "%")]
    ++ (match c.cpuName with
        | some n => [("Name", n)]
        | none => [])

/-- Embedding of `get_network_info`; the per-interface tables are injected already
rendered (their construction is straight-line formatting); `none` models the
psutil enumeration raising, which the probe converts to its `Error` field. -/
def get_network_info (n : Option (List (String × FieldVal))) : List (String × FieldVal) :=
  match n with
  | none => [("Error", FieldVal.str "Unable to retrieve network information")]
  | some entries => entries

inductive ReportSection
  | table (t : List (String × String))
  | nested (t : List (String × FieldVal))
  | office (o : OfficeInfo)
  | procs (l : List ProcEntry)

structure CollectEnv where
  pfacts : PlatformFacts
  hostnameLookup : Except String String
  node : Nat
  win : WinEnv
  hw1 : Option CmdResult
  hw2 : Option CmdResult
  hw3 : Option CmdResult
  officeReg : RegistryView
  programFiles : String
  programFilesX86 : String
  pathExists : String → Bool
  cpu : Option CpuData
  mem : Option (VirtualMemory × SwapMemory)
  disk : Option (List PartitionInfo × Option DiskCounters)
  net : Option (List (String × FieldVal))
  procs : Option (List (Except PsErr ProcInfo))

/-- The `system_data = {...}` aggregation in `main`: nine probes, invoked
once each, keyed by the nine fixed names.  Only `get_system_info` can raise;
its failure aborts the aggregation. -/
def collect (e : CollectEnv) : Except String (List (String × ReportSection)) :=
  match get_system_info e.pfacts e.hostnameLookup e.node with
  | .error msg => .error msg
  | .ok sys => .ok
    [("system_info", ReportSection.table sys),
     ("hardware_info", ReportSection.table (get_hardware_info e.hw1 e.hw2 e.hw3)),
     ("windows_info", ReportSection.table (get_windows_info e.win)),
     ("office_info", ReportSection.office
        (get_office_info e.officeReg e.programFiles e.programFilesX86 e.pathExists)),
     ("cpu_info", ReportSection.table (get_cpu_info e.cpu)),
     ("memory_info", ReportSection.table (get_memory_info e.mem)),
     ("disk_info", ReportSection.nested (get_disk_info e.disk)),
     ("network_info", ReportSection.nested (get_network_info e.net)),
     ("processes", ReportSection.procs (get_running_processes e.procs 20))]

def emptyReg : RegistryView where
  subkeys := fun _ => none
  value := fun _ _ => none

/-- An environment in which every external call fails, including the
identity probe's hostname lookup. -/
def cexCollectEnv : CollectEnv where
  pfacts := ⟨"Windows", "n", "r", "v", "m", "p", "plat", "64bit", "host"⟩
  hostnameLookup := Except.error "getaddrinfo failed"
  node := 0
  win := ⟨"10", "10.0.19045", "19045", none, none, "Unknown", "Unknown"⟩
  hw1 := none
  hw2 := none
  hw3 := none
  officeReg := emptyReg
  programFiles := "C:\\Program Files"
  programFilesX86 := "C:\\Program Files (x86)"
  pathExists := fun _ => false
  cpu := none
  mem := none
  disk := none
  net := none
  procs := none

/-- Counterexample to C1 as stated: under a failing hostname lookup the
identity probe (which has no `try`/`except`) propagates the error, so the
aggregate collection does not return a nine-key report at all. -/
theorem collect_counterexample :
    collect cexCollectEnv = Except.error "getaddrinfo failed" ∧
    ∀ r, collect cexCollectEnv ≠ Except.ok r := by
  refine ⟨rfl, ?_⟩
  intro r h
  cases h

/-- C1, amended: every probe except the identity probe catches faults at its
own boundary; whenever the identity probe's hostname lookup succeeds, the
aggregate collection returns a report with exactly the nine fixed top-level
keys, regardless of any combination of failures in the other probes'
external calls; when the lookup fails, its error propagates out of the
aggregation. -/
theorem collect_nine_keys (e : CollectEnv) :
    (∀ ip, e.hostnameLookup = Except.ok ip →
      ∃ r, collect e = Except.ok r ∧
        r.map Prod.fst = ["system_info", "hardware_info", "windows_info",
          "office_info", "cpu_info", "memory_info", "disk_info",
          "network_info", "processes"]) ∧
    (∀ msg, e.hostnameLookup = Except.error msg →
      collect e = Except.error msg) := by
  constructor
  · intro ip hip
    have hsys : get_system_info e.pfacts e.hostnameLookup e.node = Except.ok
        [("System", e.pfacts.systemName),
         ("Node Name", e.pfacts.nodeName),
         ("Release", e.pfacts.release),
         ("Version", e.pfacts.version),
         ("Machine", e.pfacts.machine),
         ("Processor", e.pfacts.processor),
         ("Platform", e.pfacts.platformFull),
         ("Architecture", e.pfacts.architecture),
         ("Hostname", e.pfacts.hostname),
         ("IP Address", ip),
         ("MAC Address", get_mac_address e.node)] := by
      unfold get_system_info
      rw [hip]
    have hcol : collect e = Except.ok
        [("system_info", ReportSection.table
            [("System", e.pfacts.systemName),
             ("Node Name", e.pfacts.nodeName),
             ("Release", e.pfacts.release),
             ("Version", e.pfacts.version),
             ("Machine", e.pfacts.machine),
             ("Processor", e.pfacts.processor),
             ("Platform", e.pfacts.platformFull),
             ("Architecture", e.pfacts.architecture),
             ("Hostname", e.pfacts.hostname),
             ("IP Address", ip),
             ("MAC Address", get_mac_address e.node)]),
         ("hardware_info", ReportSection.table (get_hardware_info e.hw1 e.hw2 e.hw3)),
         ("windows_info", ReportSection.table (get_windows_info e.win)),
         ("office_info", ReportSection.office
            (get_office_info e.officeReg e.programFiles e.programFilesX86 e.pathExists)),
         ("cpu_info", ReportSection.table (get_cpu_info e.cpu)),
         ("memory_info", ReportSection.table (get_memory_info e.mem)),
         ("disk_info", ReportSection.nested (get_disk_info e.disk)),
         ("network_info", ReportSection.nested (get_network_info e.net)),
         ("processes", ReportSection.procs (get_running_processes e.procs 20))] := by
      unfold collect
      rw [hsys]
    exact ⟨_, hcol, rfl⟩
  · intro msg hmsg
    unfold collect get_system_info
    rw [hmsg]

def witCollectEnv : CollectEnv where
  pfacts := ⟨"Windows", "n", "r", "v", "m", "p", "plat", "64bit", "host"⟩
  hostnameLookup := Except.ok "127.0.0.1"
  node := 0
  win := ⟨"10", "10.0.19045", "19045", none, none, "Unknown", "Unknown"⟩
  hw1 := none
  hw2 := none
  hw3 := none
  officeReg := emptyReg
  programFiles := "C:\\Program Files"
  programFilesX86 := "C:\\Program Files (x86)"
  pathExists := fun _ => false
  cpu := none
  mem := none
  disk := none
  net := none
  procs := none

theorem collect_nine_keys_witness :
    ∃ r, collect witCollectEnv = Except.ok r ∧
      r.map Prod.fst = ["system_info", "hardware_info", "windows_info",
        "office_info", "cpu_info", "memory_info", "disk_info",
        "network_info", "processes"] :=
  (collect_nine_keys witCollectEnv).1 "127.0.0.1" rfl

end SystemReporter
